import Mathlib

/-!
Verification development for the Microsoft-Poc repository.

The repository holds two Python files:
* `src/FastMCPServer/server.py` — a FastMCP streamable-HTTP server with a mock
  `Database`, a mock `Cache`, a `metrics` dict, and the tools `process_data`,
  `get_metrics` and `stream_notifications`;
* `src/LowLevelMCPServer/client.py` — a resumability demo client.

The first part embeds the server's pure application logic (cache, database,
tool bodies) directly from the source.  The second part models the resumable
event-streaming core described by the specification (EventStore /
StreamChannel / SessionRegistry / ResumptionCoordinator): that subsystem is
implemented by the MCP SDK, not by code under `src/`, so it is modelled from
the specification's words.
-/

set_option autoImplicit false

namespace MicrosoftPoc

/-! ## Part 1 — `src/FastMCPServer/server.py`, embedded from the source -/

namespace FastMCPServer

/-- `Cache` from `server.py` (lines 42–53): `self.data` is a Python `dict`.
We embed the dict as an insertion-ordered association list without duplicate
keys: `set` overwrites in place when the key is present and appends otherwise,
exactly as a Python dict assignment does. -/
abbrev Cache (α : Type) : Type := List (String × α)

/-- `Cache.get`: `self.data.get(key)` — `None` when the key is absent. -/
def Cache.get {α : Type} (c : Cache α) (k : String) : Option α :=
  (List.find? (fun p => p.1 = k) c).map (fun p => p.2)

/-- `Cache.set`: `self.data[key] = value` — overwrite in place when present,
append otherwise (Python dict insertion-order semantics). -/
def Cache.set {α : Type} (c : Cache α) (k : String) (v : α) : Cache α :=
  if List.any c (fun p => p.1 = k) then
    List.map (fun p => if p.1 = k then (k, v) else p) c
  else
    c ++ [(k, v)]

/-- The empty cache: `Cache.__init__` sets `self.data = {}`. -/
def Cache.empty {α : Type} : Cache α := []

/-- `len(cache.data)`: the number of keys in the dict. -/
def Cache.size {α : Type} (c : Cache α) : Nat := c.length

/-- Running a list of `set` operations in order. -/
def Cache.setAll {α : Type} (c : Cache α) (ops : List (String × α)) : Cache α :=
  ops.foldl (fun acc p => acc.set p.1 p.2) c

/-- `Database.query` from `server.py` (lines 38–39): returns
`[{"id": 1, "data": f"Result for: {sql}"}]`.  The row is embedded as an
id/data pair. -/
def Database.query (sql : String) : List (Nat × String) :=
  [(1, "Result for: " ++ sql)]

/-- The application state managed by `app_lifespan` (lines 64–81): the cache,
the `metrics` dict (`requests` and `errors` counters), and — since the mock
`Database` itself is stateless — a log of the SQL queries the database has
executed, so that "performs no database queries" is observable. -/
structure AppState where
  cache : Cache String
  requests : Nat
  errors : Nat
  dbLog : List String
deriving Repr

/-- The state produced by `app_lifespan`: empty cache,
`metrics = {"requests": 0, "errors": 0}`, no queries executed yet. -/
def AppState.initial : AppState :=
  { cache := Cache.empty, requests := 0, errors := 0, dbLog := [] }

/-- Python truthiness of `cached` in `if cached:` (line 113): `None` and the
empty string are falsy, any other string is truthy. -/
def truthy : Option String → Bool
  | none => false
  | some s => !(s = "")

/-- The SQL text built at line 127: `f"SELECT * FROM data WHERE id = {i}"`. -/
def stepQuery (i : Nat) : String :=
  "SELECT * FROM data WHERE id = " ++ toString i

/-- `process_data` from `server.py` (lines 95–144), embedded as a state
transformer returning the tool's string result and the updated state.
Step by step from the source: increment `metrics["requests"]`; look up
`cache_key = f"result:{data}"`; on a truthy cached value return
`f"Cached: {cached}"` with no further effect; otherwise run `steps` database
queries, collect each row's `"data"` field, join with `", "` into
`f"Processed {data}: {...}"`, store that under the cache key and return it.
(The `ctx.info`/`ctx.debug`/`ctx.report_progress` calls and the
resource-updated notification are logging/notification side channels with no
effect on the state modelled here.) -/
def process_data (data : String) (steps : Nat) (s : AppState) : String × AppState :=
  let s1 : AppState := { s with requests := s.requests + 1 }
  let cache_key : String := "result:" ++ data
  let cached : Option String := s1.cache.get cache_key
  if truthy cached then
    ("Cached: " ++ cached.getD "", s1)
  else
    let queries : List String := (List.range steps).map stepQuery
    let result_parts : List String :=
      queries.map (fun sql => ((Database.query sql).head?.map (fun row => row.2)).getD "")
    let result : String := "Processed " ++ data ++ ": " ++ String.intercalate ", " result_parts
    (result,
      { s1 with
        cache := s1.cache.set cache_key result,
        dbLog := s1.dbLog ++ queries })

/-- The dict returned by `get_metrics` (lines 147–158). -/
structure MetricsOut where
  total_requests : Nat
  total_errors : Nat
  cache_size : Nat
deriving Repr, DecidableEq

/-- `get_metrics` from `server.py` (lines 147–158): reads the shared state and
returns `{"total_requests": …, "total_errors": …, "cache_size": …}`; the state
is returned unchanged (the tool only reads it). -/
def get_metrics (s : AppState) : MetricsOut × AppState :=
  ({ total_requests := s.requests
     total_errors := s.errors
     cache_size := s.cache.size }, s)

end FastMCPServer

/-! ## Part 2 — the resumable event-streaming core

The specification (§2–§4) describes EventStore, StreamChannel,
SessionRegistry and ResumptionCoordinator.  That subsystem is implemented by
the MCP SDK's streamable-HTTP transport and event store; the repository's
`src/` holds only its callers (`client.py`, and `server.py`'s FastMCP
configuration at lines 84–92 where `event_store` enables resumability), so
every definition below is modelled from the specification's words. -/

namespace Resumable

/-- Modelled from the spec (§3 EventRecord): an immutable
`(sequenceId, payload)` pair; `producedAt` only feeds age-based retention,
which is not modelled (count-based retention is). -/
structure EventRecord where
  sequenceId : Nat
  payload : String
deriving Repr, DecidableEq

/-- Modelled from the spec (§7 error taxonomy): the channel-level errors the
claims mention. `replayGapDetected` carries the lowest available sequence id. -/
inductive StreamErr where
  | channelBusy
  | channelNotFound
  | replayGapDetected (oldestAvailable : Nat)
deriving Repr, DecidableEq

/-- Modelled from the spec (§3 StreamChannel, §3 EventStore): the per-channel
ledger (ordered, append-only, oldest first), the `nextSequence` counter
starting at 1, the optional live subscriber (identified by a number), and the
count-based retention bound (`none` = unbounded). -/
structure StreamChannel where
  ledger : List EventRecord
  nextSequence : Nat
  liveSubscriber : Option Nat
  retentionBound : Option Nat
deriving Repr, DecidableEq

/-- A freshly opened channel: empty ledger, `nextSequence = 1`, no
subscriber. -/
def StreamChannel.fresh (bound : Option Nat) : StreamChannel :=
  { ledger := [], nextSequence := 1, liveSubscriber := none, retentionBound := bound }

/-- Modelled from the spec (§3 EventStore retention): once the count bound is
exceeded, eviction removes the oldest records. -/
def evict (bound : Option Nat) (ledger : List EventRecord) : List EventRecord :=
  match bound with
  | none => ledger
  | some b => ledger.drop (ledger.length - b)

/-- Modelled from the spec (§4.2 `publish` / §4.4 `emit`): append a new
record with the next sequence id, bump the counter, apply retention, and —
when a live subscriber is attached — forward the record to it.  Returns the
assigned id, the forwarded record (if any), and the updated channel. -/
def StreamChannel.publish (ch : StreamChannel) (payload : String) :
    Nat × Option EventRecord × StreamChannel :=
  let record : EventRecord := { sequenceId := ch.nextSequence, payload := payload }
  (ch.nextSequence,
   ch.liveSubscriber.map (fun _ => record),
   { ch with
     ledger := evict ch.retentionBound (ch.ledger ++ [record]),
     nextSequence := ch.nextSequence + 1 })

/-- Modelled from the spec (§4.2 `attach`): attach a live consumer; fails with
`ChannelBusy` if one is already attached. -/
def StreamChannel.attach (ch : StreamChannel) (sub : Nat) : Except StreamErr StreamChannel :=
  match ch.liveSubscriber with
  | some _ => .error .channelBusy
  | none => .ok { ch with liveSubscriber := some sub }

/-- Modelled from the spec (§4.2 `detach`): release the current subscriber
without affecting the ledger. -/
def StreamChannel.detach (ch : StreamChannel) : StreamChannel :=
  { ch with liveSubscriber := none }

/-- Modelled from the spec (§4.3): the lowest sequence id still available for
replay; when the ledger is empty nothing older than `nextSequence` is
available. -/
def StreamChannel.oldestAvailable (ch : StreamChannel) : Nat :=
  match ch.ledger.head? with
  | some r => r.sequenceId
  | none => ch.nextSequence

/-- Modelled from the spec (§4.3 ResumptionCoordinator, step 3): given
`lastSeen`, fail `ChannelBusy` if a subscriber is attached; if the oldest
retained record has `sequenceId ≤ lastSeen + 1` (no gap) replay every retained
record with `sequenceId > lastSeen` in ledger order and attach the caller as
live subscriber; otherwise fail `ReplayGapDetected` with the lowest available
id. -/
def StreamChannel.resume (ch : StreamChannel) (sub : Nat) (lastSeen : Nat) :
    Except StreamErr (List EventRecord × StreamChannel) :=
  match ch.liveSubscriber with
  | some _ => .error .channelBusy
  | none =>
    if ch.oldestAvailable ≤ lastSeen + 1 then
      .ok (ch.ledger.filter (fun r => lastSeen < r.sequenceId),
           { ch with liveSubscriber := some sub })
    else
      .error (.replayGapDetected ch.oldestAvailable)

/-- Publish a list of payloads in order, collecting the records forwarded to
the live subscriber (live delivery, spec §4.2: delivery order equals ledger
order). -/
def StreamChannel.deliverAll (ch : StreamChannel) (ps : List String) :
    List EventRecord × StreamChannel :=
  match ps with
  | [] => ([], ch)
  | p :: rest =>
    let step := ch.publish p
    let next := step.2.2.deliverAll rest
    (step.2.1.toList ++ next.1, next.2)

/-- Modelled from the spec (§4.3 and §8): a full resume interaction — replay,
attach, then the events emitted after the resume began, delivered live to the
newly attached subscriber.  Returns the complete stream the subscriber
observes. -/
def StreamChannel.resumeSession (ch : StreamChannel) (sub : Nat) (lastSeen : Nat)
    (laterPayloads : List String) : Except StreamErr (List EventRecord) :=
  match ch.resume sub lastSeen with
  | .error e => .error e
  | .ok (replay, ch1) => .ok (replay ++ (ch1.deliverAll laterPayloads).1)

/-- Emit a list of payloads in order on a channel, collecting the assigned
sequence ids (spec §4.4: `emit` is the only write path). -/
def StreamChannel.emitAll (ch : StreamChannel) (ps : List String) :
    List Nat × StreamChannel :=
  match ps with
  | [] => ([], ch)
  | p :: rest =>
    let step := ch.publish p
    let next := step.2.2.emitAll rest
    (step.1 :: next.1, next.2)

/-- Ledger well-formedness (spec §3 invariant): the retained sequence ids are
consecutive and end just below `nextSequence`. -/
def StreamChannel.WF (ch : StreamChannel) : Prop :=
  ch.ledger.map (fun r => r.sequenceId)
      = List.range' (ch.nextSequence - ch.ledger.length) ch.ledger.length
    ∧ ch.ledger.length < ch.nextSequence

/-- Modelled from the spec (§3 StreamChannel key): either the id of the
originating request or the sentinel standalone key. -/
inductive ChannelKey where
  | standalone
  | forRequest (requestId : String)
deriving Repr, DecidableEq

/-- Modelled from the spec (§3 Session status). -/
inductive SessionStatus where
  | active
  | closing
  | closed
deriving Repr, DecidableEq

/-- Modelled from the spec (§3 Session): id, status and the channel map
(keys unique within a session), as an insertion-ordered association list. -/
structure Session where
  sid : String
  status : SessionStatus
  channels : List (ChannelKey × StreamChannel)
deriving Repr, DecidableEq

/-- Channel lookup within a session. -/
def Session.getChannel (s : Session) (k : ChannelKey) : Option StreamChannel :=
  (List.find? (fun p => p.1 = k) s.channels).map (fun p => p.2)

/-- Modelled from the spec (§4.2 `openStandalone` / `openForRequest` plus
§4.4 `emit`): publish a payload on the channel under key `k`, creating the
channel lazily on first use. -/
def Session.publishOn (s : Session) (k : ChannelKey) (payload : String) : Session :=
  if List.any s.channels (fun p => p.1 = k) then
    { s with
      channels := s.channels.map
        (fun p => if p.1 = k then (p.1, (p.2.publish payload).2.2) else p) }
  else
    { s with
      channels := s.channels ++ [(k, ((StreamChannel.fresh none).publish payload).2.2)] }

/-- Resume on a session's channel under key `k` (spec §4.3 steps 1 and 3):
`ChannelNotFound` when the key was never opened, otherwise the channel-level
resume. -/
def Session.resumeOn (s : Session) (k : ChannelKey) (sub lastSeen : Nat) :
    Except StreamErr (List EventRecord × StreamChannel) :=
  match s.getChannel k with
  | none => .error .channelNotFound
  | some ch => ch.resume sub lastSeen

/-- Modelled from the spec (§7 error taxonomy, registry level). -/
inductive RegistryErr where
  | sessionNotFound
deriving Repr, DecidableEq

/-- Modelled from the spec (§6 session close): the close request is always
acknowledged. -/
inductive CloseAck where
  | acknowledged
deriving Repr, DecidableEq

/-- Modelled from the spec (§4.1 `closeSession`): what a detached subscriber
observes — a clean end-of-stream, never an error. -/
inductive EndSignal where
  | endOfStream
  | streamError
deriving Repr, DecidableEq

/-- Modelled from the spec (§3 SessionRegistry): the session map, as an
insertion-ordered association list keyed by session id. -/
structure SessionRegistry where
  sessions : List (String × Session)
deriving Repr, DecidableEq

/-- Modelled from the spec (§4.1 `getSession`): lookup; fails with
`SessionNotFound` if absent or already Closed. -/
def SessionRegistry.getSession (reg : SessionRegistry) (i : String) :
    Except RegistryErr Session :=
  match List.find? (fun p => p.1 = i) reg.sessions with
  | none => .error .sessionNotFound
  | some p => if p.2.status = SessionStatus.closed then .error .sessionNotFound else .ok p.2

/-- Closing one session (spec §4.1): detach every live subscriber — each
observes a clean end-of-stream — move the status to Closed and release all
channels' ledgers.  Returns the signals sent to the detached subscribers. -/
def Session.close (s : Session) : List EndSignal × Session :=
  (s.channels.filterMap (fun p => p.2.liveSubscriber.map (fun _ => EndSignal.endOfStream)),
   { s with
     status := SessionStatus.closed,
     channels := s.channels.map (fun p => (p.1, { p.2 with liveSubscriber := none, ledger := [] })) })

/-- Modelled from the spec (§4.1 `closeSession`, §6 session close): close the
session with the given id; idempotent — closing an absent or already-closed
session is a no-op; always acknowledged. -/
def SessionRegistry.closeSession (reg : SessionRegistry) (i : String) :
    CloseAck × List EndSignal × SessionRegistry :=
  match List.find? (fun p => p.1 = i) reg.sessions with
  | none => (.acknowledged, [], reg)
  | some found =>
    if found.2.status = SessionStatus.closed then
      (.acknowledged, [], reg)
    else
      let closedPair := found.2.close
      (.acknowledged, closedPair.1,
       { sessions := reg.sessions.map (fun p => if p.1 = i then (i, closedPair.2) else p) })

end Resumable

/-! ## Part 3 — theorems -/

namespace FastMCPServer

theorem Cache.get_empty {α : Type} (k : String) : (Cache.empty (α := α)).get k = none := rfl

theorem Cache.get_set_self {α : Type} (c : Cache α) (k : String) (v : α) :
    (c.set k v).get k = some v := by
  unfold Cache.set Cache.get
  by_cases h : List.any c (fun p => p.1 = k) = true
  · simp only [h, if_true]
    induction c with
    | nil => simp at h
    | cons p t ih =>
      by_cases hp : p.1 = k
      · simp [List.find?_cons, hp]
      · have h' : List.any t (fun p => p.1 = k) = true := by simpa [hp] using h
        simp only [List.map_cons, if_neg hp, List.find?_cons,
          show decide (p.1 = k) = false by simp [hp]]
        exact ih h'
  · simp only [h, if_false]
    have hnone : List.find? (fun p => decide (p.1 = k)) c = none := by
      rw [List.find?_eq_none]
      intro x hx
      simp only [List.any_eq_true] at h
      intro hxk
      exact h ⟨x, hx, hxk⟩
    simp [hnone]

theorem find?_update_other {α : Type} (t : List (String × α)) (k k' : String) (v : α)
    (hkk : k' ≠ k) :
    List.find? (fun p => p.1 = k') (t.map (fun p => if p.1 = k then (k, v) else p))
      = List.find? (fun p => p.1 = k') t := by
  have hk : ¬ k = k' := fun e => hkk e.symm
  induction t with
  | nil => simp
  | cons p t ih =>
    by_cases hp : p.1 = k
    · have hp' : ¬ p.1 = k' := by rw [hp]; exact hk
      simp [List.find?_cons, hp, hp', hk, ih]
    · by_cases hp' : p.1 = k'
      · simp [List.find?_cons, hp, hp', hk, hkk]
      · simp [List.find?_cons, hp, hp', ih]

theorem Cache.get_set_other {α : Type} (c : Cache α) (k k' : String) (v : α)
    (hkk : k' ≠ k) : (c.set k v).get k' = c.get k' := by
  unfold Cache.set Cache.get
  by_cases h : List.any c (fun p => p.1 = k) = true
  · simp only [h, if_true]
    rw [find?_update_other c k k' v hkk]
  · simp only [h, if_false, List.find?_append]
    have hk : ¬ k = k' := fun e => hkk e.symm
    have h2 : List.find? (fun p => decide (p.1 = k')) [(k, v)] = none := by
      simp [hk]
    simp [h2]

theorem Cache.get_setAll_of_not_mem {α : Type} (ops : List (String × α)) (c : Cache α)
    (k : String) (hops : ∀ p ∈ ops, p.1 ≠ k) : (c.setAll ops).get k = c.get k := by
  induction ops generalizing c with
  | nil => rfl
  | cons op rest ih =>
    have hop : op.1 ≠ k := hops op (List.mem_cons_self op rest)
    have hrest : ∀ p ∈ rest, p.1 ≠ k := fun p hp => hops p (List.mem_cons_of_mem op hp)
    show ((c.set op.1 op.2).setAll rest).get k = c.get k
    rw [ih (c.set op.1 op.2) hrest,
      Cache.get_set_other c op.1 k op.2 (fun e => hop e.symm)]

/-- C8: cache operations round-trip — after `Cache.set(k, v)`, `Cache.get(k)`
returns exactly `v`; a key never set (either on the empty cache, or after any
sequence of `set`s that avoid it) reads as `None`; and `set` on one key does
not change the value stored under any other key. -/
theorem C8_cache_roundtrip {α : Type} (c : Cache α) (k k' : String) (v : α)
    (ops : List (String × α)) (hkk : k' ≠ k) (hops : ∀ p ∈ ops, p.1 ≠ k) :
    (c.set k v).get k = some v
    ∧ (c.set k v).get k' = c.get k'
    ∧ (Cache.empty (α := α)).get k = none
    ∧ (Cache.empty.setAll ops).get k = none := by
  refine ⟨Cache.get_set_self c k v, Cache.get_set_other c k k' v hkk,
    Cache.get_empty k, ?_⟩
  rw [Cache.get_setAll_of_not_mem ops Cache.empty k hops]
  exact Cache.get_empty k

theorem C8_cache_roundtrip_witness :
    (Cache.set [("a", 1)] "b" 2).get "b" = some 2
    ∧ (Cache.set [("a", 1)] "b" 2).get "a" = Cache.get [("a", 1)] "a"
    ∧ (Cache.empty (α := Nat)).get "b" = none
    ∧ (Cache.setAll Cache.empty [("c", 5)]).get "b" = none :=
  C8_cache_roundtrip [("a", (1 : Nat))] "b" "a" 2 [("c", 5)]
    (by decide) (by decide)

theorem process_data_requests (d : String) (n : Nat) (st : AppState) :
    (process_data d n st).2.requests = st.requests + 1 := by
  unfold process_data
  by_cases h : truthy (Cache.get st.cache ("result:" ++ d)) = true
  · simp [h]
  · simp [h]

theorem process_data_miss (data : String) (steps : Nat) (s : AppState)
    (hmiss : s.cache.get ("result:" ++ data) = none) :
    process_data data steps s
      = ("Processed " ++ data ++ ": "
           ++ String.intercalate ", "
                ((List.range steps).map (fun i => "Result for: " ++ stepQuery i)),
         { s with
           requests := s.requests + 1,
           cache := s.cache.set ("result:" ++ data)
             ("Processed " ++ data ++ ": "
               ++ String.intercalate ", "
                    ((List.range steps).map (fun i => "Result for: " ++ stepQuery i))),
           dbLog := s.dbLog ++ (List.range steps).map stepQuery }) := by
  unfold process_data
  simp only [hmiss]
  simp [truthy, Database.query, Function.comp]
  exact ⟨rfl, rfl⟩

theorem process_data_hit (data : String) (steps : Nat) (s : AppState) (r : String)
    (hr : r ≠ "") (hhit : s.cache.get ("result:" ++ data) = some r) :
    process_data data steps s
      = ("Cached: " ++ r, { s with requests := s.requests + 1 }) := by
  unfold process_data
  simp only [hhit]
  simp [truthy, hr]

/-- C9: after a first `process_data(data, steps)` call from a state where the
key was never cached completes with result `r` (a non-empty string, hence
truthy), any subsequent `process_data(data, steps')` call from a state still
caching `r` returns `"Cached: " ++ r` while performing no database queries
and no cache writes (its whole state change is the request counter); and every
call, cached or not, increments `metrics["requests"]` by exactly 1. -/
theorem C9_process_data_cached_path (data : String) (steps steps' : Nat)
    (s s2 : AppState) (hmiss : s.cache.get ("result:" ++ data) = none)
    (_hsteps : 1 ≤ steps)
    (hhit : s2.cache.get ("result:" ++ data) = some (process_data data steps s).1) :
    (process_data data steps s).1 ≠ ""
    ∧ (process_data data steps s).2.cache.get ("result:" ++ data)
        = some (process_data data steps s).1
    ∧ process_data data steps' s2
        = ("Cached: " ++ (process_data data steps s).1,
           { s2 with requests := s2.requests + 1 })
    ∧ (∀ d n st, (process_data d n st).2.requests = st.requests + 1) := by
  have hne : (process_data data steps s).1 ≠ "" := by
    rw [process_data_miss data steps s hmiss]
    intro h
    have hlen := congrArg String.length h
    simp [String.length_append] at hlen
    exact absurd hlen.1.1.1 (by decide)
  refine ⟨hne, ?_, ?_, fun d n st => process_data_requests d n st⟩
  · rw [process_data_miss data steps s hmiss]
    exact Cache.get_set_self s.cache ("result:" ++ data) _
  · exact process_data_hit data steps' s2 (process_data data steps s).1 hne hhit

theorem C9_process_data_cached_path_witness :
    (process_data "x" 1 AppState.initial).1 ≠ ""
    ∧ (process_data "x" 1 AppState.initial).2.cache.get ("result:" ++ "x")
        = some (process_data "x" 1 AppState.initial).1
    ∧ process_data "x" 0 (process_data "x" 1 AppState.initial).2
        = ("Cached: " ++ (process_data "x" 1 AppState.initial).1,
           { (process_data "x" 1 AppState.initial).2 with
             requests := (process_data "x" 1 AppState.initial).2.requests + 1 }) := by
  have h := C9_process_data_cached_path "x" 1 0 AppState.initial
    (process_data "x" 1 AppState.initial).2 rfl (by decide) rfl
  exact ⟨h.1, h.2.1, h.2.2.1⟩

/-- C10: `get_metrics` is read-only — it reports exactly the current
`metrics["requests"]`, `metrics["errors"]` and `len(cache.data)`, and leaves
the whole application state (metrics, cache, database log) unchanged. -/
theorem C10_get_metrics_readonly (s : AppState) :
    (get_metrics s).1.total_requests = s.requests
    ∧ (get_metrics s).1.total_errors = s.errors
    ∧ (get_metrics s).1.cache_size = s.cache.size
    ∧ (get_metrics s).2 = s :=
  ⟨rfl, rfl, rfl, rfl⟩

end FastMCPServer

namespace Resumable

theorem drop_range' : ∀ (d s n : Nat), List.drop d (List.range' s n) = List.range' (s + d) (n - d) := by
  intro d
  induction d with
  | zero => intro s n; simp
  | succ d ih =>
    intro s n
    cases n with
    | zero => simp
    | succ m =>
      rw [List.range'_succ, List.drop_succ_cons, ih (s + 1) m,
        Nat.succ_sub_succ]
      congr 1
      omega

theorem publish_nextSequence (ch : StreamChannel) (p : String) :
    ((ch.publish p).2.2).nextSequence = ch.nextSequence + 1 := rfl

theorem publish_liveSubscriber (ch : StreamChannel) (p : String) :
    ((ch.publish p).2.2).liveSubscriber = ch.liveSubscriber := rfl

theorem publish_assigned (ch : StreamChannel) (p : String) :
    (ch.publish p).1 = ch.nextSequence := rfl

theorem publish_forwarded_of_attached (ch : StreamChannel) (p : String) (sub : Nat)
    (h : ch.liveSubscriber = some sub) :
    (ch.publish p).2.1 = some { sequenceId := ch.nextSequence, payload := p } := by
  unfold StreamChannel.publish
  simp [h]

/-- Publishing preserves the ledger invariant: the retained ids stay
consecutive and end just below `nextSequence`. -/
theorem publish_WF (ch : StreamChannel) (p : String) (h : ch.WF) :
    ((ch.publish p).2.2).WF := by
  obtain ⟨hmap, hlen⟩ := h
  unfold StreamChannel.publish StreamChannel.WF
  cases hb : ch.retentionBound with
  | none =>
    constructor
    · simp only [evict, hb, List.map_append, hmap, List.length_append,
        List.map_cons, List.map_nil, List.length_cons, List.length_nil]
      rw [show ch.nextSequence + 1 - (ch.ledger.length + (0 + 1))
            = ch.nextSequence - ch.ledger.length by omega]
      rw [show List.range' (ch.nextSequence - ch.ledger.length) (ch.ledger.length + (0 + 1))
            = List.range' (ch.nextSequence - ch.ledger.length) (ch.ledger.length + 1) by rfl]
      rw [List.range'_1_concat]
      congr 2
      omega
    · simp only [evict, hb, List.length_append]
      simp
      omega
  | some b =>
    have hfull : (ch.ledger ++ [({ sequenceId := ch.nextSequence, payload := p } : EventRecord)]).map
          (fun r => r.sequenceId)
        = List.range' (ch.nextSequence - ch.ledger.length) (ch.ledger.length + 1) := by
      rw [List.map_append, hmap, List.range'_1_concat]
      simp only [List.map_cons, List.map_nil]
      congr 2
      omega
    constructor
    · simp only [evict, hb]
      rw [List.map_drop, hfull, List.length_append]
      simp only [List.length_cons, List.length_nil, drop_range']
      rw [List.length_drop]
      simp only [List.length_append, List.length_cons, List.length_nil]
      congr 1
      omega
    · simp only [evict, hb, List.length_drop, List.length_append]
      simp
      omega

theorem fresh_WF (bound : Option Nat) : (StreamChannel.fresh bound).WF := by
  constructor <;> simp [StreamChannel.fresh]

theorem emitAll_ids : ∀ (ps : List String) (ch : StreamChannel),
    (ch.emitAll ps).1 = List.range' ch.nextSequence ps.length := by
  intro ps
  induction ps with
  | nil => intro ch; rfl
  | cons p rest ih =>
    intro ch
    show (ch.publish p).1 :: (((ch.publish p).2.2).emitAll rest).1
        = List.range' ch.nextSequence (rest.length + 1)
    rw [ih, publish_assigned, publish_nextSequence, List.range'_succ]

theorem emitAll_nextSequence : ∀ (ps : List String) (ch : StreamChannel),
    ((ch.emitAll ps).2).nextSequence = ch.nextSequence + ps.length := by
  intro ps
  induction ps with
  | nil => intro ch; simp [StreamChannel.emitAll]
  | cons p rest ih =>
    intro ch
    show (((ch.publish p).2.2).emitAll rest).2.nextSequence = ch.nextSequence + (rest.length + 1)
    rw [ih, publish_nextSequence]
    omega

theorem emitAll_WF : ∀ (ps : List String) (ch : StreamChannel), ch.WF →
    ((ch.emitAll ps).2).WF := by
  intro ps
  induction ps with
  | nil => intro ch h; exact h
  | cons p rest ih =>
    intro ch h
    exact ih ((ch.publish p).2.2) (publish_WF ch p h)

theorem emitAll_liveSubscriber : ∀ (ps : List String) (ch : StreamChannel),
    ((ch.emitAll ps).2).liveSubscriber = ch.liveSubscriber := by
  intro ps
  induction ps with
  | nil => intro ch; rfl
  | cons p rest ih =>
    intro ch
    show (((ch.publish p).2.2).emitAll rest).2.liveSubscriber = ch.liveSubscriber
    rw [ih, publish_liveSubscriber]

theorem filter_after_all (N : Nat) : ∀ (l : List EventRecord) (start len : Nat),
    l.map (fun r => r.sequenceId) = List.range' start len → N < start →
    l.filter (fun r => N < r.sequenceId) = l := by
  intro l
  induction l with
  | nil => intro start len _ _; rfl
  | cons r t ih =>
    intro start len hmap hN
    rw [List.map_cons] at hmap
    rcases List.range'_eq_cons_iff.mp hmap.symm with ⟨hr, _hpos, ht⟩
    have hrN : N < r.sequenceId := by omega
    rw [List.filter_cons, if_pos (by simpa using hrN)]
    rw [ih (r.sequenceId + 1) (len - 1) ht (by omega)]

theorem filter_after_of_range (N : Nat) : ∀ (l : List EventRecord) (start len : Nat),
    l.map (fun r => r.sequenceId) = List.range' start len → start ≤ N + 1 →
    (l.filter (fun r => N < r.sequenceId)).map (fun r => r.sequenceId)
      = List.range' (N + 1) (start + len - (N + 1)) := by
  intro l
  induction l with
  | nil =>
    intro start len hmap hstart
    have hlen : len = 0 := by simpa using hmap.symm
    simp [hlen]
    omega
  | cons r t ih =>
    intro start len hmap hstart
    rw [List.map_cons] at hmap
    rcases List.range'_eq_cons_iff.mp hmap.symm with ⟨hr, hpos, ht⟩
    by_cases hN : r.sequenceId ≤ N
    · rw [List.filter_cons, if_neg (by simpa using Nat.not_lt.mpr hN)]
      rw [ih (r.sequenceId + 1) (len - 1) ht (by omega)]
      congr 1
      omega
    · push_neg at hN
      have hstart' : start = N + 1 := by omega
      rw [filter_after_all N (r :: t) start len (by rw [List.map_cons, hmap]) (by omega)]
      rw [List.map_cons, hmap, hstart']
      congr 1
      omega

theorem oldest_eq_start (ch : StreamChannel) (h : ch.WF) :
    ch.oldestAvailable = ch.nextSequence - ch.ledger.length := by
  obtain ⟨hmap, _⟩ := h
  unfold StreamChannel.oldestAvailable
  cases hl : ch.ledger with
  | nil => simp [hl]
  | cons r t =>
    rw [hl, List.map_cons] at hmap
    rcases List.range'_eq_cons_iff.mp hmap.symm with ⟨hr, _, _⟩
    simpa using hr.symm

theorem deliverAll_forwarded : ∀ (ps : List String) (ch : StreamChannel) (sub : Nat),
    ch.liveSubscriber = some sub →
    ((ch.deliverAll ps).1).map (fun r => r.sequenceId) = List.range' ch.nextSequence ps.length
      ∧ ((ch.deliverAll ps).1).map (fun r => r.payload) = ps := by
  intro ps
  induction ps with
  | nil => intro ch sub _; exact ⟨rfl, rfl⟩
  | cons p rest ih =>
    intro ch sub hsub
    have hfwd := publish_forwarded_of_attached ch p sub hsub
    have hsub' : ((ch.publish p).2.2).liveSubscriber = some sub := by
      rw [publish_liveSubscriber]; exact hsub
    have hrest := ih ((ch.publish p).2.2) sub hsub'
    constructor
    · show (((ch.publish p).2.1).toList ++ (((ch.publish p).2.2).deliverAll rest).1).map
          (fun r => r.sequenceId) = List.range' ch.nextSequence (rest.length + 1)
      rw [hfwd, List.map_append, hrest.1, publish_nextSequence, List.range'_succ]
      rfl
    · show (((ch.publish p).2.1).toList ++ (((ch.publish p).2.2).deliverAll rest).1).map
          (fun r => r.payload) = p :: rest
      rw [hfwd, List.map_append, hrest.2]
      rfl

theorem publish_retentionBound (ch : StreamChannel) (p : String) :
    ((ch.publish p).2.2).retentionBound = ch.retentionBound := rfl

theorem publish_ledger_none (ch : StreamChannel) (p : String)
    (h : ch.retentionBound = none) :
    ((ch.publish p).2.2).ledger
      = ch.ledger ++ [{ sequenceId := ch.nextSequence, payload := p }] := by
  unfold StreamChannel.publish
  simp [evict, h]

theorem emitAll_ledger_length_none : ∀ (ps : List String) (ch : StreamChannel),
    ch.retentionBound = none →
    ((ch.emitAll ps).2).ledger.length = ch.ledger.length + ps.length := by
  intro ps
  induction ps with
  | nil => intro ch _; rfl
  | cons p rest ih =>
    intro ch h
    show (((ch.publish p).2.2).emitAll rest).2.ledger.length = ch.ledger.length + (rest.length + 1)
    rw [ih ((ch.publish p).2.2) (by rw [publish_retentionBound]; exact h),
      publish_ledger_none ch p h]
    simp
    omega

/-- C2: on any channel, the sequence ids handed out by consecutive `emit`
calls are `1, 2, 3, …` — they start at 1, increase by exactly 1 with no gaps,
are never reused — the ledger records them in exactly that order (in full when
no retention bound evicts), and the `nextSequence` counter never decreases. -/
theorem C2_sequence_ids_gapless (bound : Option Nat) (ps : List String) :
    ((StreamChannel.fresh bound).emitAll ps).1 = List.range' 1 ps.length
    ∧ (((StreamChannel.fresh none).emitAll ps).2).ledger.map (fun r => r.sequenceId)
        = List.range' 1 ps.length
    ∧ ∀ (ch : StreamChannel) (p : String),
        ch.nextSequence ≤ ((ch.publish p).2.2).nextSequence := by
  refine ⟨emitAll_ids ps (StreamChannel.fresh bound), ?_, ?_⟩
  · obtain ⟨hmap, _⟩ := emitAll_WF ps (StreamChannel.fresh none) (fresh_WF none)
    rw [hmap]
    have hns := emitAll_nextSequence ps (StreamChannel.fresh none)
    have hll := emitAll_ledger_length_none ps (StreamChannel.fresh none) rfl
    have h1 : (StreamChannel.fresh none).nextSequence = 1 := rfl
    have h2 : (StreamChannel.fresh none).ledger.length = 0 := rfl
    rw [h1] at hns
    rw [h2] at hll
    rw [hns, hll]
    congr 1 <;> omega
  · intro ch p
    rw [publish_nextSequence]
    omega

/-- C1: a resume with `lastSeenSequenceId = N`, on a well-formed channel whose
oldest retained record is at most `N + 1` (no gap) and whose ledger reaches up
to `M = nextSequence - 1 ≥ N`, succeeds and delivers exactly the records
`N+1 … M` in sequence-id order, each exactly once with no duplicates, followed
by every event published after the resume began — the whole observed stream
carries the consecutive ids `N+1, N+2, …` and the payloads are the retained
ones after `N` followed by the newly published ones. -/
theorem C1_resume_replay_exact (ch : StreamChannel) (sub N : Nat) (ps : List String)
    (hWF : ch.WF) (hsub : ch.liveSubscriber = none)
    (hgap : ch.oldestAvailable ≤ N + 1) (hN : N < ch.nextSequence) :
    Except.map (List.map (fun r => r.sequenceId)) (ch.resumeSession sub N ps)
        = .ok (List.range' (N + 1) (ch.nextSequence - (N + 1) + ps.length))
    ∧ Except.map (List.map (fun r => r.payload)) (ch.resumeSession sub N ps)
        = .ok ((ch.ledger.filter (fun r => N < r.sequenceId)).map (fun r => r.payload)
                ++ ps) := by
  obtain ⟨hmap, hlen⟩ := hWF
  have hstart : ch.nextSequence - ch.ledger.length ≤ N + 1 := by
    rw [← oldest_eq_start ch ⟨hmap, hlen⟩]
    exact hgap
  have hresume : ch.resume sub N
      = .ok (ch.ledger.filter (fun r => N < r.sequenceId),
             { ch with liveSubscriber := some sub }) := by
    unfold StreamChannel.resume
    simp only [hsub]
    rw [if_pos hgap]
  have hsession : ch.resumeSession sub N ps
      = .ok (ch.ledger.filter (fun r => N < r.sequenceId)
              ++ (({ ch with liveSubscriber := some sub } : StreamChannel).deliverAll ps).1) := by
    unfold StreamChannel.resumeSession
    rw [hresume]
  have hdel := deliverAll_forwarded ps { ch with liveSubscriber := some sub } sub rfl
  have hrep_seq : (ch.ledger.filter (fun r => N < r.sequenceId)).map (fun r => r.sequenceId)
      = List.range' (N + 1) (ch.nextSequence - (N + 1)) := by
    rw [filter_after_of_range N ch.ledger (ch.nextSequence - ch.ledger.length)
      ch.ledger.length hmap hstart]
    congr 1
    omega
  constructor
  · rw [hsession]
    show Except.ok ((ch.ledger.filter (fun r => N < r.sequenceId)
        ++ (({ ch with liveSubscriber := some sub } : StreamChannel).deliverAll ps).1).map
          (fun r => r.sequenceId)) = _
    rw [List.map_append, hrep_seq, hdel.1]
    have happ : List.range' (N + 1) (ch.nextSequence - (N + 1))
          ++ List.range' ch.nextSequence ps.length
        = List.range' (N + 1) (ch.nextSequence - (N + 1) + ps.length) := by
      have h := List.range'_append_1 (N + 1) (ch.nextSequence - (N + 1)) ps.length
      rw [show (N + 1) + (ch.nextSequence - (N + 1)) = ch.nextSequence from by omega,
        Nat.add_comm ps.length (ch.nextSequence - (N + 1))] at h
      exact h
    rw [happ]
  · rw [hsession]
    show Except.ok ((ch.ledger.filter (fun r => N < r.sequenceId)
        ++ (({ ch with liveSubscriber := some sub } : StreamChannel).deliverAll ps).1).map
          (fun r => r.payload)) = _
    rw [List.map_append, hdel.2]

theorem C1_resume_replay_exact_witness :
    Except.map (List.map (fun r => r.sequenceId))
        (((StreamChannel.fresh none).emitAll ["a", "b", "c"]).2.resumeSession 0 1 ["d"])
      = .ok [2, 3, 4]
    ∧ Except.map (List.map (fun r => r.payload))
        (((StreamChannel.fresh none).emitAll ["a", "b", "c"]).2.resumeSession 0 1 ["d"])
      = .ok ["b", "c", "d"] := by
  have h := C1_resume_replay_exact ((StreamChannel.fresh none).emitAll ["a", "b", "c"]).2
    0 1 ["d"] ⟨by decide, by decide⟩ rfl (by decide) (by decide)
  exact ⟨h.1, h.2⟩

/-- C3: on a well-formed, unattached channel, a resume whose
`lastSeenSequenceId = N` is older than the oldest retained record
(`N + 1 < oldestAvailable`) fails with `ReplayGapDetected` carrying the lowest
sequence id still available (every retained record's id is at least that
value); it never returns a successful — empty or partial — replay. -/
theorem C3_replay_gap_detected (ch : StreamChannel) (sub N : Nat) (hWF : ch.WF)
    (hsub : ch.liveSubscriber = none) (hgap : N + 1 < ch.oldestAvailable) :
    ch.resume sub N = .error (.replayGapDetected ch.oldestAvailable)
    ∧ (∀ r ∈ ch.ledger, ch.oldestAvailable ≤ r.sequenceId)
    ∧ (∀ replay ch1, ch.resume sub N ≠ .ok (replay, ch1)) := by
  have herr : ch.resume sub N = .error (.replayGapDetected ch.oldestAvailable) := by
    unfold StreamChannel.resume
    simp only [hsub]
    rw [if_neg (by omega)]
  refine ⟨herr, ?_, ?_⟩
  · intro r hr
    have hmem : r.sequenceId ∈ List.range' (ch.nextSequence - ch.ledger.length)
        ch.ledger.length := by
      rw [← hWF.1]
      exact List.mem_map_of_mem (fun r => r.sequenceId) hr
    rw [List.mem_range'_1] at hmem
    rw [oldest_eq_start ch hWF]
    exact hmem.1
  · intro replay ch1
    rw [herr]
    simp

theorem C3_replay_gap_detected_witness :
    ((StreamChannel.fresh (some 3)).emitAll
        ["e1", "e2", "e3", "e4", "e5", "e6", "e7", "e8", "e9", "e10"]).2.resume 0 2
      = .error (.replayGapDetected 8) :=
  (C3_replay_gap_detected
    ((StreamChannel.fresh (some 3)).emitAll
        ["e1", "e2", "e3", "e4", "e5", "e6", "e7", "e8", "e9", "e10"]).2
    0 2 ⟨by decide, by decide⟩ rfl (by decide)).1

/-- C4: attaching a second live subscriber to a channel that already has one
fails with `ChannelBusy` — `attach` returns only the error, leaving the
existing attachment and the ledger untouched — while after `detach` of the
first subscriber the same attach succeeds, changing nothing but the
subscriber. -/
theorem C4_channel_busy (ch : StreamChannel) (s1 s2 : Nat)
    (hsub : ch.liveSubscriber = some s1) :
    ch.attach s2 = .error .channelBusy
    ∧ ch.detach.attach s2 = .ok { ch with liveSubscriber := some s2 } := by
  constructor
  · unfold StreamChannel.attach
    rw [hsub]
  · rfl

theorem C4_channel_busy_witness :
    StreamChannel.attach
        { ledger := [], nextSequence := 1, liveSubscriber := some 0, retentionBound := none } 1
      = .error .channelBusy
    ∧ (StreamChannel.detach
        { ledger := [], nextSequence := 1, liveSubscriber := some 0, retentionBound := none }).attach 1
      = .ok { ledger := [], nextSequence := 1, liveSubscriber := some 1, retentionBound := none } :=
  C4_channel_busy
    { ledger := [], nextSequence := 1, liveSubscriber := some 0, retentionBound := none } 0 1 rfl

theorem sessions_mk (l : List (String × Session)) :
    (SessionRegistry.mk l).sessions = l := rfl

theorem channels_mk (a : String) (b : SessionStatus)
    (c : List (ChannelKey × StreamChannel)) : (Session.mk a b c).channels = c := rfl

theorem close_signals_endOfStream (s : Session) :
    (s.close.1).all (fun sig => sig = EndSignal.endOfStream) = true := by
  rw [List.all_eq_true]
  intro sig hsig
  unfold Session.close at hsig
  rcases List.mem_filterMap.mp hsig with ⟨p, _, hp⟩
  cases hl : p.2.liveSubscriber with
  | none => rw [hl] at hp; exact absurd hp (by simp)
  | some a =>
    rw [hl] at hp
    simp only [decide_eq_true_eq]
    exact (Option.some.inj hp).symm

theorem filterMap_signals_length : ∀ (l : List (ChannelKey × StreamChannel)),
    (l.filterMap (fun p => p.2.liveSubscriber.map (fun _ => EndSignal.endOfStream))).length
      = (l.filter (fun p => p.2.liveSubscriber.isSome)).length := by
  intro l
  induction l with
  | nil => rfl
  | cons p t ih =>
    cases hp : p.2.liveSubscriber with
    | none => simp [List.filterMap_cons, List.filter_cons, hp, ih]
    | some a => simp [List.filterMap_cons, List.filter_cons, hp, ih]

theorem close_signals_length (s : Session) :
    (s.close.1).length = (s.channels.filter (fun p => p.2.liveSubscriber.isSome)).length :=
  filterMap_signals_length s.channels

theorem close_detaches (s : Session) :
    ∀ kc ∈ (s.close.2).channels, kc.2.liveSubscriber = none := by
  intro kc hkc
  unfold Session.close at hkc
  rcases List.mem_map.mp hkc with ⟨p, _, hp⟩
  rw [← hp]

theorem close_status (s : Session) : (s.close.2).status = SessionStatus.closed := rfl

theorem find?_map_close (l : List (String × Session)) (i : String) (s' : Session) :
    List.find? (fun q => q.1 = i) (l.map (fun q => if q.1 = i then (i, s') else q))
      = (List.find? (fun q => q.1 = i) l).map (fun _ => (i, s')) := by
  induction l with
  | nil => rfl
  | cons q t ih =>
    by_cases hq : q.1 = i
    · simp [List.find?_cons, hq]
    · simp [List.find?_cons, hq, ih]

theorem closeSession_open (reg : SessionRegistry) (i : String) (p : String × Session)
    (hfind : List.find? (fun q => q.1 = i) reg.sessions = some p)
    (hopen : ¬ p.2.status = SessionStatus.closed) :
    reg.closeSession i
      = (.acknowledged, p.2.close.1,
         { sessions := reg.sessions.map (fun q => if q.1 = i then (i, p.2.close.2) else q) }) := by
  unfold SessionRegistry.closeSession
  rw [hfind]
  simp [hopen]

/-- C5: closing a live session detaches every live subscriber of its channels
(each observes a clean end-of-stream signal, never an error — one signal per
attached subscriber), every channel of the closed session ends up without a
subscriber, and any subsequent `getSession` on that id fails with
`SessionNotFound`. -/
theorem C5_close_session_clean (reg : SessionRegistry) (i : String) (s : Session)
    (hget : reg.getSession i = .ok s) :
    ((reg.closeSession i).2.1).all (fun sig => sig = EndSignal.endOfStream) = true
    ∧ ((reg.closeSession i).2.1).length
        = (s.channels.filter (fun p => p.2.liveSubscriber.isSome)).length
    ∧ (∀ q ∈ ((reg.closeSession i).2.2).sessions, q.1 = i →
        ∀ kc ∈ q.2.channels, kc.2.liveSubscriber = none)
    ∧ ((reg.closeSession i).2.2).getSession i = .error .sessionNotFound := by
  cases hfind : List.find? (fun q => q.1 = i) reg.sessions with
  | none =>
    unfold SessionRegistry.getSession at hget
    rw [hfind] at hget
    exact absurd hget (by simp)
  | some p =>
    have hopen : ¬ p.2.status = SessionStatus.closed := by
      intro hc
      unfold SessionRegistry.getSession at hget
      rw [hfind] at hget
      simp [hc] at hget
    have hs : s = p.2 := by
      unfold SessionRegistry.getSession at hget
      rw [hfind] at hget
      simp [hopen] at hget
      exact hget.symm
    have hclose := closeSession_open reg i p hfind hopen
    rw [hclose, hs]
    refine ⟨close_signals_endOfStream p.2, close_signals_length p.2, ?_, ?_⟩
    · intro q hq hqi kc hkc
      rcases List.mem_map.mp hq with ⟨q0, _, hq0⟩
      by_cases h0 : q0.1 = i
      · rw [if_pos h0] at hq0
        rw [← hq0] at hkc
        exact close_detaches p.2 kc hkc
      · rw [if_neg h0] at hq0
        rw [← hq0] at hqi
        exact absurd hqi h0
    · unfold SessionRegistry.getSession
      rw [sessions_mk, find?_map_close reg.sessions i p.2.close.2, hfind]
      simp [close_status]

theorem C5_close_session_clean_witness :
    ((SessionRegistry.closeSession
        { sessions := [("s1",
            { sid := "s1", status := SessionStatus.active,
              channels := [(ChannelKey.standalone,
                { ledger := [], nextSequence := 1, liveSubscriber := some 7,
                  retentionBound := none })] })] } "s1").2.1).all
        (fun sig => sig = EndSignal.endOfStream) = true
    ∧ ((SessionRegistry.closeSession
        { sessions := [("s1",
            { sid := "s1", status := SessionStatus.active,
              channels := [(ChannelKey.standalone,
                { ledger := [], nextSequence := 1, liveSubscriber := some 7,
                  retentionBound := none })] })] } "s1").2.1).length = 1
    ∧ ((SessionRegistry.closeSession
        { sessions := [("s1",
            { sid := "s1", status := SessionStatus.active,
              channels := [(ChannelKey.standalone,
                { ledger := [], nextSequence := 1, liveSubscriber := some 7,
                  retentionBound := none })] })] } "s1").2.2).getSession "s1"
        = .error .sessionNotFound := by
  have h := C5_close_session_clean
    { sessions := [("s1",
        { sid := "s1", status := SessionStatus.active,
          channels := [(ChannelKey.standalone,
            { ledger := [], nextSequence := 1, liveSubscriber := some 7,
              retentionBound := none })] })] } "s1"
    { sid := "s1", status := SessionStatus.active,
      channels := [(ChannelKey.standalone,
        { ledger := [], nextSequence := 1, liveSubscriber := some 7,
          retentionBound := none })] } rfl
  exact ⟨h.1, h.2.1, h.2.2.2⟩

/-- C6: `closeSession` is idempotent — closing a session whose status is
already Closed acknowledges the request and returns the registry completely
unchanged (no signals sent, no session touched). -/
theorem C6_close_idempotent (reg : SessionRegistry) (i : String) (p : String × Session)
    (hfind : List.find? (fun q => q.1 = i) reg.sessions = some p)
    (hclosed : p.2.status = SessionStatus.closed) :
    reg.closeSession i = (.acknowledged, [], reg) := by
  unfold SessionRegistry.closeSession
  rw [hfind]
  simp [hclosed]

theorem C6_close_idempotent_witness :
    SessionRegistry.closeSession
        { sessions := [("s1",
            { sid := "s1", status := SessionStatus.closed, channels := [] })] } "s1"
      = (.acknowledged, [],
         { sessions := [("s1",
             { sid := "s1", status := SessionStatus.closed, channels := [] })] }) :=
  C6_close_idempotent
    { sessions := [("s1", { sid := "s1", status := SessionStatus.closed, channels := [] })] }
    "s1" ("s1", { sid := "s1", status := SessionStatus.closed, channels := [] }) rfl rfl

theorem find?_publishOn_other (t : List (ChannelKey × StreamChannel)) (k k' : ChannelKey)
    (payload : String) (hkk : k' ≠ k) :
    List.find? (fun p => p.1 = k')
        (t.map (fun p => if p.1 = k then (p.1, (p.2.publish payload).2.2) else p))
      = List.find? (fun p => p.1 = k') t := by
  have hk : ¬ k = k' := fun e => hkk e.symm
  induction t with
  | nil => rfl
  | cons p t ih =>
    by_cases hp : p.1 = k
    · have hp' : ¬ p.1 = k' := by rw [hp]; exact hk
      simp [List.find?_cons, hp, hp', hk, ih]
    · by_cases hp' : p.1 = k'
      · simp [List.find?_cons, hp, hp', hk, hkk]
      · simp [List.find?_cons, hp, hp', ih]

/-- C7: request-correlated channels and the standalone channel are disjoint
namespaces — publishing an event on the channel opened for a request id
leaves the session's standalone channel exactly as it was, so resuming the
standalone stream with any `lastSeenSequenceId` yields exactly what it would
have yielded before the publish: the request-correlated event is never
replayed there. -/
theorem C7_disjoint_namespaces (s : Session) (rid : String) (payload : String)
    (sub N : Nat) :
    (s.publishOn (ChannelKey.forRequest rid) payload).getChannel ChannelKey.standalone
        = s.getChannel ChannelKey.standalone
    ∧ (s.publishOn (ChannelKey.forRequest rid) payload).resumeOn ChannelKey.standalone sub N
        = s.resumeOn ChannelKey.standalone sub N := by
  have hkk : ChannelKey.standalone ≠ ChannelKey.forRequest rid := fun h =>
    ChannelKey.noConfusion h
  have hch : (s.publishOn (ChannelKey.forRequest rid) payload).getChannel
      ChannelKey.standalone = s.getChannel ChannelKey.standalone := by
    unfold Session.publishOn Session.getChannel
    by_cases h : List.any s.channels (fun p => p.1 = ChannelKey.forRequest rid) = true
    · rw [if_pos h]
      rw [channels_mk, find?_publishOn_other s.channels (ChannelKey.forRequest rid)
        ChannelKey.standalone payload hkk]
    · rw [if_neg h]
      rw [channels_mk, List.find?_append]
      have h2 : List.find? (fun p => decide (p.1 = ChannelKey.standalone))
          [(ChannelKey.forRequest rid, ((StreamChannel.fresh none).publish payload).2.2)]
          = none := by
        simp
      simp [h2]
  refine ⟨hch, ?_⟩
  unfold Session.resumeOn
  rw [hch]

end Resumable

end MicrosoftPoc
